import Mathlib

/-!
Verification of the HyperTemplate static-site template expander
(`hypertemplate.py`).  The functions below are shallow embeddings of the
Python source: text buffers become `List Char`, Python dicts become
association lists with insert-overwrite semantics, raised exceptions become
an `Except Err` result, and file I/O is abstracted to explicit data.
-/

set_option maxRecDepth 10000

/-- Structured counterpart of the exceptions raised by the script.
`DocumentError` messages become structured constructors carrying the same
data that the Python f-strings interpolate; `BuildError` wrapping of an
error with a document path becomes `page_err`. `out_of_fuel` marks a
non-terminating recursion in the fuel-indexed embedding of `process_html`. -/
inductive Err where
  | missing_gt : Err
  | closing_no_open : Err
  | open_no_close : Err
  | invalid_tag : List Char → Err
  | name_required : Err
  | field_missing_name : String → Err
  | field_required : String → List Char → Err
  | overlapping_tags : String → Err
  | could_not_parse_field : List Char → Err
  | key_error : List Char → Err
  | no_such_template : String → List Char → Err
  | page_err : String → Err → Err
  | out_of_fuel : Err
deriving DecidableEq, Repr

/-- The single-quote character (written via its code point). -/
def squote : Char := Char.ofNat 39

/-- The backslash character. -/
def bslash : Char := Char.ofNat 92

/-- Python `\w` restricted to ASCII as used by the script's documents:
letters, digits and underscore. -/
def isWordChar (c : Char) : Bool := c.isAlpha || c.isDigit || c = '_'

/-- A character matched by the character class `[\w-]`. -/
def isWordHyphen (c : Char) : Bool := isWordChar c || c = '-'

/-- A character matched by the character class `[\$\w-]`. -/
def isDollarWordHyphen (c : Char) : Bool := isWordHyphen c || c = '$'

/-- Python `\s` (ASCII): space, tab, newline, carriage return, vertical tab,
form feed. -/
def isPySpace (c : Char) : Bool :=
  c = ' ' || c = '\t' || c = '\n' || c = '\r' || c = '\x0b' || c = '\x0c'

/-- `str.strip()`: remove leading and trailing whitespace. -/
def py_strip (l : List Char) : List Char :=
  ((l.dropWhile isPySpace).reverse.dropWhile isPySpace).reverse

/-- Lookup in an association list (Python `d[k]` / `d.get(k)`). -/
def alook {α : Type} (l : List (List Char × α)) (k : List Char) : Option α :=
  match l with
  | [] => none
  | (k2, v) :: r => if k2 = k then some v else alook r k

/-- Python dict assignment `d[k] = v`: overwrite in place if the key is
present (keeping its original insertion position), else append. -/
def dict_insert {α : Type} (l : List (List Char × α)) (k : List Char) (v : α) :
    List (List Char × α) :=
  match l with
  | [] => [(k, v)]
  | (k2, v2) :: r => if k2 = k then (k2, v) :: r else (k2, v2) :: dict_insert r k v

/-- One step of the quote-tracking automaton of `index_ignore_quoted`:
`st` is the currently open quote character (if any), `prev` the previous
character.  An unescaped quote opens a quoted region; the same quote
character closes it (the closing test does not look at backslashes). -/
def qstep (prev : Option Char) (st : Option Char) (c : Char) : Option Char :=
  match st with
  | none => if (c = '"' ∨ c = squote) ∧ prev ≠ some bslash then some c else none
  | some q => if c = q then none else some q

/-- Body of `index_ignore_quoted`, recursing over the suffix of the text
that starts at the current scan position.  `prev` is the character just
before that position, `st` the open quote.  Mirrors
`for i in range(begin_index, len(text) - len(string) + 1)`: the scan stops
once the remaining suffix is shorter than the needle. -/
def iiqAux (s : List Char) (prev st : Option Char) : List Char → Option Nat
  | [] => none
  | c :: rest =>
    if s.length ≤ rest.length + 1 then
      match st with
      | none =>
        if (c = '"' ∨ c = squote) ∧ prev ≠ some bslash then
          (iiqAux s (some c) (some c) rest).map (· + 1)
        else if s.isPrefixOf (c :: rest) then some 0
        else (iiqAux s (some c) none rest).map (· + 1)
      | some q =>
        if c = q then (iiqAux s (some c) none rest).map (· + 1)
        else (iiqAux s (some c) (some q) rest).map (· + 1)
    else none

/-- `index_ignore_quoted(text, string, begin_index)`: index of the first
occurrence of `s` at or after `b` that is not inside a single- or
double-quoted region, or `none` (the Python code raises `ValueError`). -/
def index_ignore_quoted (text s : List Char) (b : Nat) : Option Nat :=
  (iiqAux s (if b = 0 then none else text.get? (b - 1)) none (text.drop b)).map (· + b)

/-- `True` iff the regex `</?NAME` matches at position `i` of `text`:
either `<NAME` or `</NAME` starts there. -/
def form_at (tag text : List Char) (i : Nat) : Bool :=
  ('<' :: tag).isPrefixOf (text.drop i) || ('<' :: '/' :: tag).isPrefixOf (text.drop i)

/-- Scan a suffix for the first match of `</?NAME`, returning its offset
within the suffix. -/
def firstFormAux (tag : List Char) : List Char → Option Nat
  | [] => none
  | c :: rest =>
    if ('<' :: tag).isPrefixOf (c :: rest) || ('<' :: '/' :: tag).isPrefixOf (c :: rest)
    then some 0
    else (firstFormAux tag rest).map (· + 1)

/-- `re.search("</?" + tag_name, text[pos:])` translated to an absolute
index: position of the first opening or closing form of the tag at or
after `pos`. -/
def first_form_from (tag text : List Char) (pos : Nat) : Option Nat :=
  (firstFormAux tag (text.drop pos)).map (· + pos)

theorem iiqAux_some_bound {s : List Char} {prev st : Option Char} {l : List Char} {i : Nat}
    (h : iiqAux s prev st l = some i) : i + s.length ≤ l.length ∧ i < l.length := by
  induction l generalizing prev st i with
  | nil => simp [iiqAux] at h
  | cons c rest ih =>
    simp only [iiqAux] at h
    by_cases hb : s.length ≤ rest.length + 1
    · simp only [hb, if_pos] at h
      cases st with
      | none =>
        by_cases hq : (c = '"' ∨ c = squote) ∧ prev ≠ some bslash
        · rw [if_pos hq] at h
          obtain ⟨j, hj, rfl⟩ := Option.map_eq_some'.mp h
          have := ih hj
          constructor <;> simp [List.length_cons] <;> omega
        · rw [if_neg hq] at h
          by_cases hp : s.isPrefixOf (c :: rest)
          · rw [if_pos hp] at h
            cases h
            constructor
            · simpa using hb
            · simp
          · rw [if_neg hp] at h
            obtain ⟨j, hj, rfl⟩ := Option.map_eq_some'.mp h
            have := ih hj
            constructor <;> simp [List.length_cons] <;> omega
      | some q =>
        simp only [] at h
        by_cases hc : c = q
        · rw [if_pos hc] at h
          obtain ⟨j, hj, rfl⟩ := Option.map_eq_some'.mp h
          have := ih hj
          constructor <;> simp [List.length_cons] <;> omega
        · rw [if_neg hc] at h
          obtain ⟨j, hj, rfl⟩ := Option.map_eq_some'.mp h
          have := ih hj
          constructor <;> simp [List.length_cons] <;> omega
    · simp [hb] at h

theorem index_ignore_quoted_bounds {text s : List Char} {b i : Nat}
    (h : index_ignore_quoted text s b = some i) :
    b ≤ i ∧ i + s.length ≤ text.length ∧ i < text.length := by
  obtain ⟨j, hj, rfl⟩ := Option.map_eq_some'.mp h
  refine ⟨Nat.le_add_left b j, ?_, ?_⟩ <;>
  · have hb := iiqAux_some_bound hj
    have hdrop : (text.drop b).length = text.length - b := List.length_drop b text
    omega

theorem firstFormAux_some_bound {tag l : List Char} {i : Nat}
    (h : firstFormAux tag l = some i) : i < l.length := by
  induction l generalizing i with
  | nil => simp [firstFormAux] at h
  | cons c rest ih =>
    rw [firstFormAux] at h
    by_cases hp : ('<' :: tag).isPrefixOf (c :: rest) || ('<' :: '/' :: tag).isPrefixOf (c :: rest)
    · simp only [hp, if_pos] at h
      cases h
      simp
    · simp only [hp, if_neg, not_false_iff] at h
      obtain ⟨j, hj, rfl⟩ := Option.map_eq_some'.mp h
      have := ih hj
      simpa [List.length_cons] using Nat.add_lt_add_right this 1

theorem first_form_from_bounds {tag text : List Char} {pos i : Nat}
    (h : first_form_from tag text pos = some i) : pos ≤ i ∧ i < text.length := by
  obtain ⟨j, hj, rfl⟩ := Option.map_eq_some'.mp h
  refine ⟨Nat.le_add_left pos j, ?_⟩
  have hb := firstFormAux_some_bound hj
  have hdrop : (text.drop pos).length = text.length - pos := List.length_drop pos text
  omega

/-- The loop of `find_tag`.  `st` and `hs` are the Python variables
`start` and `html_start`; `hs = 0` doubles as "no opening tag seen yet",
exactly as in the source (after any opening tag `hs` is at least 1). -/
def findTagLoop (tag text : List Char) (st hs : Nat) :
    Except Err (Option (Nat × Nat × Nat × Nat)) :=
  match hm : first_form_from tag text hs with
  | none => if hs = 0 then .ok none else .error .open_no_close
  | some i =>
    match hq : index_ignore_quoted text ['>'] i with
    | none => .error .missing_gt
    | some j =>
      if text.get? (i + 1) = some '/' then
        if hs = 0 then .error .closing_no_open
        else .ok (some (st, hs, i, j + 1))
      else findTagLoop tag text i (j + 1)
termination_by text.length - hs
decreasing_by
  have h1 := first_form_from_bounds hm
  have h2 := index_ignore_quoted_bounds hq
  simp at h2
  omega

/-- `find_tag(tag_name, text)`: offsets
`(start, html_start, html_end, end)` of the innermost first occurrence of
the tag, `ok none` if the tag does not appear, or the `DocumentError`
raised by the source. -/
def find_tag (tag text : List Char) : Except Err (Option (Nat × Nat × Nat × Nat)) :=
  findTagLoop tag text 0 0

/-- Attribute mappings: Python dicts from attribute name to string value. -/
abbrev Attrs := List (List Char × List Char)

/-- The prefix- and suffix-strip of `parse_attributes`:
`re.subn(r"(^<\s*[\w-]+\s*)|(\/?>$)", "", tag)` must make exactly two
substitutions; the result is the text strictly between the stripped
opening delimiter and the stripped `>` (or `/>`).  Returns `none` when
either strip fails. -/
def strip_tag_delims (tag : List Char) : Option (List Char) :=
  match tag with
  | '<' :: rest =>
    let r1 := rest.dropWhile isPySpace
    let w := r1.takeWhile isWordHyphen
    if w.isEmpty then none
    else
      let mid := (r1.drop w.length).dropWhile isPySpace
      match mid.getLast? with
      | some '>' =>
        let m2 := mid.dropLast
        match m2.getLast? with
        | some c2 => if c2 = '/' then some m2.dropLast else some m2
        | none => some m2
      | _ => none
  | _ => none

/-- One match of `([\$\w-]+)\s*=\s*"([^"]*?)"\s*` at the head of `l`:
the attribute name, its value (the lazy `[^"]*?` is the run up to the
first `"`), and the unconsumed remainder. -/
def parse_one_attr (l : List Char) : Option ((List Char × List Char) × List Char) :=
  let nm := l.takeWhile isDollarWordHyphen
  if nm.isEmpty then none
  else
    match (l.drop nm.length).dropWhile isPySpace with
    | '=' :: r2 =>
      match r2.dropWhile isPySpace with
      | '"' :: r3 =>
        let v := r3.takeWhile (fun c => c ≠ '"')
        match r3.drop v.length with
        | '"' :: r4 => some ((nm, v), r4.dropWhile isPySpace)
        | _ => none
      | _ => none
    | _ => none

/-- The `while text != ""` loop of `parse_attributes`, consuming one
attribute per iteration into the dict.  Fuel bounds the iteration count;
each iteration consumes at least one character, so `text.length + 1` fuel
is never exhausted. -/
def parse_attrs_loop (tag : List Char) : Nat → List Char → Attrs → Except Err Attrs
  | _, [], acc => .ok acc
  | 0, _ :: _, _ => .error (.invalid_tag tag)
  | fuel + 1, c :: rest, acc =>
    match parse_one_attr (c :: rest) with
    | some ((nm, v), t2) => parse_attrs_loop tag fuel t2 (dict_insert acc nm v)
    | none => .error (.invalid_tag tag)

/-- `parse_attributes(tag)`: dictionary of `name="value"` attributes of one
opening tag, or the `invalid tag` `DocumentError`. -/
def parse_attributes (tag : List Char) : Except Err Attrs :=
  match strip_tag_delims tag with
  | none => .error (.invalid_tag tag)
  | some text => parse_attrs_loop tag (text.length + 1) text []

/-- A template file: root-relative path (its identity in error messages)
and raw text content. -/
structure Template where
  relpath : String
  content : List Char
deriving DecidableEq, Repr

/-- `get_field_dict` inside `process_template`: parse a `--field` tag and
require its `--name` attribute, raising `BuildError(template, ...)`
otherwise. -/
def get_field_dict (template : Template) (field_tag : List Char) : Except Err Attrs :=
  match parse_attributes field_tag with
  | .error e => .error e
  | .ok ret =>
    if alook ret "--name".data = none then .error (.field_missing_name template.relpath)
    else .ok ret

/-- `get_field_value` inside `process_template`: resolve a `--field` tag
against the provided field mapping, falling back to the tag's own
`--default` attribute, and failing with ``field `name` required`` when
neither exists. -/
def get_field_value (template : Template) (fields_provided : Attrs)
    (field_tag : List Char) : Except Err (List Char) :=
  match get_field_dict template field_tag with
  | .error e => .error e
  | .ok field =>
    match alook field "--name".data with
    | none => .error (.field_missing_name template.relpath)
    | some field_name =>
      match alook fields_provided field_name with
      | some value => .ok value
      | none =>
        match alook field "--default".data with
        | some d => .ok d
        | none => .error (.field_required template.relpath field_name)

/-- One attribute group ` +[\w-]+ *= *"[^"\n\r]*?"` of the void-tag regex,
consumed from the head of `l`; returns the remainder.  (The regex engine
never needs to give back a successfully matched group here: every
alternative continuation after dropping a group fails on the group's
leading name character.) -/
def match_attr_group (l : List Char) : Option (List Char) :=
  match l with
  | ' ' :: _ =>
    let r1 := l.dropWhile (· = ' ')
    let nm := r1.takeWhile isWordHyphen
    if nm.isEmpty then none
    else
      match (r1.drop nm.length).dropWhile (· = ' ') with
      | '=' :: r2 =>
        match r2.dropWhile (· = ' ') with
        | '"' :: r3 =>
          let v := r3.takeWhile (fun c => c ≠ '"' ∧ c ≠ '\n' ∧ c ≠ '\r')
          match r3.drop v.length with
          | '"' :: r4 => some r4
          | _ => none
        | _ => none
      | _ => none
  | _ => none

/-- Greedily consume attribute groups (`(?: +...)*`). Fuel is the length of
the input, which bounds the group count. -/
def void_groups : Nat → List Char → List Char
  | 0, l => l
  | fuel + 1, l =>
    match match_attr_group l with
    | some r => void_groups fuel r
    | none => l

/-- Match the void-tag regex `<--NAME(?: +[\w-]+ *= *"[^"\n\r]*?")* *\/?>`
at the head of `l` (with `tagname` the literal `--NAME` part), returning
the length of the match. -/
def match_void_tag (tagname l : List Char) : Option Nat :=
  if ('<' :: tagname).isPrefixOf l then
    let r1 := l.drop (tagname.length + 1)
    let r2 := (void_groups r1.length r1).dropWhile (· = ' ')
    match r2 with
    | '>' :: r3 => some (l.length - r3.length)
    | '/' :: '>' :: r3 => some (l.length - r3.length)
    | _ => none
  else none

/-- `re.finditer` of the void-tag regex over `text`: the list of
`(match.start(), match.end())` spans, leftmost first, non-overlapping.
`pos` is the absolute position of the current suffix; fuel bounds the scan
(the scan advances at least one character per step). -/
def finditer_void (tagname : List Char) : Nat → List Char → Nat → List (Nat × Nat)
  | 0, _, _ => []
  | _ + 1, [], _ => []
  | fuel + 1, c :: rest, pos =>
    match match_void_tag tagname (c :: rest) with
    | some len => (pos, pos + len) :: finditer_void tagname fuel ((c :: rest).drop len) (pos + len)
    | none => finditer_void tagname fuel rest (pos + 1)

/-- One substitution range of `process_template`: replace
`text[first..last)` by `repl`. -/
structure SubRange where
  first : Nat
  last : Nat
  repl : List Char
deriving DecidableEq, Repr

/-- Stable insertion step: place `s` before the first range whose start is
strictly greater, after all earlier-inserted ranges with a start at most
`s.first`. -/
def insert_by_start (s : SubRange) : List SubRange → List SubRange
  | [] => [s]
  | x :: rest => if x.first < s.first then x :: insert_by_start s rest else s :: x :: rest

/-- `subs.sort(key=lambda r: r.start)`: a stable sort by range start
(Python's `list.sort` is stable; insertion sort with a strict comparison
keeps the original order of equal keys). -/
def sort_subs (subs : List SubRange) : List SubRange :=
  subs.foldr insert_by_start []

/-- The splice loop of `process_template`: walk the (sorted) substitution
ranges with a cursor, failing with ``overlapping tags`` when the cursor
has already passed the next range's start. -/
def splice_subs (tmpl : String) (text : List Char) (cursor : Nat) :
    List SubRange → Except Err (List Char)
  | [] => .ok (text.drop cursor)
  | s :: rest =>
    if cursor > s.first then .error (.overlapping_tags tmpl)
    else
      match splice_subs tmpl text s.last rest with
      | .error e => .error e
      | .ok tail => .ok ((text.drop cursor).take (s.first - cursor) ++ s.repl ++ tail)

/-- `process_template(template, fields_provided, inner_html)`: replace every
`--field` tag by its resolved value and every `--inner-html` tag by the
caller-supplied inner content, splicing all ranges back into the template
body. -/
def process_template (template : Template) (fields_provided : Attrs)
    (inner_html : List Char) : Except Err (List Char) :=
  let text := template.content
  let field_spans := finditer_void "--field".data (text.length + 1) text 0
  let inner_spans := finditer_void "--inner-html".data (text.length + 1) text 0
  let field_subs := field_spans.mapM (fun sp =>
    match get_field_value template fields_provided ((text.drop sp.1).take (sp.2 - sp.1)) with
    | .error e => Except.error e
    | .ok v => Except.ok (SubRange.mk sp.1 sp.2 v))
  match field_subs with
  | .error e => .error e
  | .ok fsubs =>
    let isubs := inner_spans.map (fun sp => SubRange.mk sp.1 sp.2 inner_html)
    splice_subs template.relpath text 0 (sort_subs (fsubs ++ isubs))

/-- One part of the `--fields` bulk attribute: split on `:`, require
exactly two pieces, strip both. -/
def bulk_step (acc : Attrs) (part : List Char) : Except Err Attrs :=
  match part.splitOn ':' with
  | [k, v] => Except.ok (dict_insert acc (py_strip k) (py_strip v))
  | _ => Except.error (.could_not_parse_field part)

/-- Parse the `--fields` bulk attribute: split on `;`, require exactly one
`:` in each part, strip name and value. -/
def parse_bulk_fields (s : List Char) : Except Err Attrs :=
  (s.splitOn ';').foldlM bulk_step []

/-- Application of one `$`-prefixed attribute to the field mapping, under
its unprefixed name (`fields[name[1:]] = value`). -/
def dollar_step (fs : Attrs) (p : List Char × List Char) : Attrs :=
  match p.1 with
  | '$' :: nm => dict_insert fs nm p.2
  | _ => fs

/-- The field-mapping construction of `process_html`: the bulk `--fields`
attribute (when present and non-empty) parsed first, then every
`$`-prefixed attribute applied under its unprefixed name, in insertion
order. -/
def build_fields (attr : Attrs) : Except Err Attrs :=
  let base :=
    match alook attr "--fields".data with
    | some s => if s ≠ [] then parse_bulk_fields s else .ok []
    | none => .ok []
  match base with
  | .error e => .error e
  | .ok fields => .ok (attr.foldl dollar_step fields)

/-- One resolution step of `process_html`: locate the innermost first
`--template` usage; `ok none` means no usage remains, `ok (some text2)` is
the document after splicing in the resolved template. -/
def ph_step (templates : List (List Char × Template)) (text : List Char) :
    Except Err (Option (List Char)) :=
  match find_tag "--template".data text with
  | .error e => .error e
  | .ok none => .ok none
  | .ok (some (s, hs, he, e)) =>
    match parse_attributes ((text.drop s).take (hs - s)) with
    | .error e2 => .error e2
    | .ok attr =>
      match alook attr "--name".data with
      | none => .error .name_required
      | some name =>
        match alook templates name with
        | none => .error (.key_error name)
        | some template =>
          match build_fields attr with
          | .error e2 => .error e2
          | .ok fields =>
            match process_template template fields ((text.drop hs).take (he - hs)) with
            | .error e2 => .error e2
            | .ok repl => .ok (some (text.take s ++ repl ++ text.drop e))

/-- `process_html(html_content, templates)`: repeatedly resolve the first
(innermost) template usage and recurse on the spliced result until no
usage remains.  The Python recursion has no fuel; `out_of_fuel` marks the
runs on which it does not terminate within `fuel` steps. -/
def process_html (templates : List (List Char × Template)) :
    Nat → List Char → Except Err (List Char)
  | 0, _ => .error .out_of_fuel
  | fuel + 1, text =>
    match ph_step templates text with
    | .error e => .error e
    | .ok none => .ok text
    | .ok (some text2) => process_html templates fuel text2

/-- A source document of the build: root-relative path and content. -/
structure Page where
  relpath : String
  content : List Char
deriving DecidableEq, Repr

/-- Add a name to the collected set (`set.add`): membership is what
matters; insertion order is kept for executability. -/
def set_add (names : List (List Char)) (n : List Char) : List (List Char) :=
  if n ∈ names then names else names ++ [n]

/-- The scan loop of `template_names`: find the first usage tag, record its
`--name`, then continue on the slice `text[html_start:html_end]` (the
region *inside* the first usage — the source marks this narrowing with
`TODO: THIS IS BROKEN`).  `find_tag` defects are wrapped into
`BuildError(page, ...)`; `parse_attributes` defects propagate unwrapped,
as in the source.  Each iteration strictly shrinks the text, so
`text.length + 1` fuel is never exhausted. -/
def template_names_loop (page : Page) : Nat → List Char → List (List Char) →
    Except Err (List (List Char))
  | 0, _, _ => .error .out_of_fuel
  | fuel + 1, text, names =>
    match find_tag "--template".data text with
    | .error e => .error (.page_err page.relpath e)
    | .ok none => .ok names
    | .ok (some (s, hs, he, _e)) =>
      match parse_attributes ((text.drop s).take (hs - s)) with
      | .error e2 => .error e2
      | .ok attr =>
        match alook attr "--name".data with
        | none => .error (.page_err page.relpath .name_required)
        | some n => template_names_loop page fuel ((text.drop hs).take (he - hs)) (set_add names n)

/-- `template_names(page)`: names of the templates the scan finds in the
page (the source notes it "doesn't work with multiple templates yet"). -/
def template_names (page : Page) : Except Err (List (List Char)) :=
  template_names_loop page (page.content.length + 1) page.content []

/-- `get_templates_used` inside `create_page_builds`: every collected name
must exist in the template mapping, else
``BuildError(page, "`name` template doesn't exist")``. -/
def get_templates_used (templates : List (List Char × Template)) (page : Page) :
    Except Err (List (List Char)) :=
  match template_names page with
  | .error e => .error e
  | .ok names =>
    match names.find? (fun n => alook templates n = none) with
    | some n => .error (.no_such_template page.relpath n)
    | none => .ok names

/-- A file of the build inventory, reduced to what the freshness check
reads: its last-modified time.  Modification times are modelled as
naturals (only their order matters to the planner). -/
structure BFile where
  mtime : Nat
deriving DecidableEq, Repr

/-- A `PageBuild` as seen by the freshness check: the source file, the
referenced templates, and the existing output (`replace`), if any. -/
structure PageBuild where
  src : BFile
  templates : List BFile
  replace : Option BFile
deriving DecidableEq, Repr

/-- Python `max(docs, key=lambda doc: doc.mtime)`: first element whose key
is maximal (a later element replaces the current one only when strictly
greater). -/
def py_max_by_mtime (d : BFile) (ds : List BFile) : BFile :=
  ds.foldl (fun best x => if x.mtime > best.mtime then x else best) d

/-- `is_required(build)` inside `create_page_builds`: rebuild when forced,
when there is no existing output, or when the newest of
`{src} ∪ templates` is strictly newer than the existing output. -/
def is_required (force_rebuild : Bool) (build : PageBuild) : Bool :=
  if force_rebuild then true
  else
    match build.replace with
    | none => true
    | some replace =>
      (py_max_by_mtime build.src build.templates).mtime > replace.mtime

/-- The planner's final filter: `[b for b in page_builds if is_required(b)]`. -/
def required_builds (force_rebuild : Bool) (builds : List PageBuild) : List PageBuild :=
  builds.filter (is_required force_rebuild)

/-- One unit of `run`'s processing/write phases, reduced to the outcomes of
its two effectful steps: `process(b)` (a `BuildError` or success) and
`save(b)` (any exception, as a message, or success). -/
structure BuildStep where
  process_result : Except Err Unit
  save_result : Except String Unit
deriving Repr

/-- The `for b in page_builds: process(b)` loop: the first `BuildError`
aborts the run. -/
def process_all : List BuildStep → Except Err Unit
  | [] => .ok ()
  | b :: rest =>
    match b.process_result with
    | .error e => .error e
    | .ok () => process_all rest

/-- The `for b in page_builds: save(b)` loop: indices of the files written,
in order, plus the first exception if any.  Files written before a failure
stay written (no rollback). -/
def save_loop (idx : Nat) : List BuildStep → List Nat × Option String
  | [] => ([], none)
  | b :: rest =>
    match b.save_result with
    | .error m => ([], some m)
    | .ok () =>
      let (saved, err) := save_loop (idx + 1) rest
      (idx :: saved, err)

/-- `run(...)` reduced to its control flow: `planning` is the outcome of
`create_page_builds` together with per-unit processing outcomes.  Returns
the exit status and the indices of the files the writer actually wrote.
Status 1: a `BuildError` during planning or processing, before any write.
Status 2: an exception during the write phase.  Status 0: success, nothing
to do, or dry run. -/
def run (planning : Except Err (List BuildStep)) (dry_run : Bool) : Nat × List Nat :=
  match planning with
  | .error _ => (1, [])
  | .ok builds =>
    match process_all builds with
    | .error _ => (1, [])
    | .ok () =>
      if builds.isEmpty then (0, [])
      else if dry_run then (0, [])
      else
        let (saved, err) := save_loop 0 builds
        match err with
        | some _ => (2, saved)
        | none => (0, saved)

theorem py_max_by_mtime_eq (d : BFile) (ds : List BFile) :
    (py_max_by_mtime d ds).mtime = (ds.map BFile.mtime).foldl max d.mtime := by
  induction ds generalizing d with
  | nil => rfl
  | cons x rest ih =>
    simp only [py_max_by_mtime, List.foldl_cons, List.map_cons] at *
    rw [ih]
    by_cases h : x.mtime > d.mtime
    · rw [if_pos h]
      congr 1
      omega
    · rw [if_neg h]
      congr 1
      omega

/-- C1: a `PageBuild` with an existing output is required exactly when the
force flag is set or the newest modification time among its source and
referenced templates is strictly greater than the output's; a build with
no existing output is always required; equal newest and output times never
require a rebuild (without the force flag). -/
theorem c1_freshness (force : Bool) (b : PageBuild) :
    (∀ r, b.replace = some r →
      (is_required force b = true ↔
        (force = true ∨ (b.templates.map BFile.mtime).foldl max b.src.mtime > r.mtime)))
    ∧ (b.replace = none → is_required force b = true)
    ∧ (∀ r, b.replace = some r → force = false →
        (b.templates.map BFile.mtime).foldl max b.src.mtime = r.mtime →
        is_required force b = false) := by
  refine ⟨?_, ?_, ?_⟩
  · intro r hr
    cases force with
    | true => simp [is_required]
    | false =>
      simp only [is_required, if_neg (by simp : ¬ (false = true)), hr]
      rw [py_max_by_mtime_eq]
      simp [Bool.false_eq_true, false_or, decide_eq_true_eq]
  · intro hr
    cases force with
    | true => simp [is_required]
    | false => simp [is_required, hr]
  · intro r hr hf heq
    subst hf
    simp only [is_required, if_neg (by simp : ¬ (false = true)), hr]
    rw [py_max_by_mtime_eq, heq]
    simp

/-- Witness for C1 at a concrete build: equal timestamps (source and
templates at time 5, output at time 5) do not trigger a rebuild. -/
theorem c1_freshness_witness :
    is_required false (PageBuild.mk (BFile.mk 5) [BFile.mk 3] (some (BFile.mk 5))) = false :=
  (c1_freshness false (PageBuild.mk (BFile.mk 5) [BFile.mk 3] (some (BFile.mk 5)))).2.2
    (BFile.mk 5) rfl rfl (by decide)

theorem process_all_ok_iff (builds : List BuildStep) :
    process_all builds = .ok () ↔ ∀ b ∈ builds, b.process_result = .ok () := by
  induction builds with
  | nil => simp [process_all]
  | cons b rest ih =>
    simp only [process_all, List.mem_cons]
    cases hb : b.process_result with
    | error e =>
      constructor
      · intro h
        cases h
      · intro h
        have := h b (Or.inl rfl)
        rw [hb] at this
        cases this
    | ok u =>
      cases u
      rw [ih]
      constructor
      · intro h x hx
        rcases hx with rfl | hx
        · exact hb
        · exact h x hx
      · intro h x hx
        exact h x (Or.inr hx)

theorem save_loop_saved_eq (builds : List BuildStep) : ∀ idx,
    (save_loop idx builds).1 =
      List.range' idx (builds.takeWhile (fun b => b.save_result.isOk)).length := by
  induction builds with
  | nil => intro idx; simp [save_loop]
  | cons b rest ih =>
    intro idx
    cases hb : b.save_result with
    | error m => simp [save_loop, hb, List.takeWhile_cons, Except.isOk, Except.toBool]
    | ok u =>
      cases u
      simp only [save_loop, hb, List.takeWhile_cons]
      have : (Except.ok () : Except String Unit).isOk = true := rfl
      rw [this]
      simp only [if_pos rfl]
      rw [ih (idx + 1)]
      simp [List.range'_succ]

/-- C3: a `BuildError` during planning or during the processing of any unit
makes `run` return status 1 with no file written (the writer is never
invoked); after processing succeeds for all units, a failing write makes
`run` return status 2 keeping exactly the files written before the
failure (no rollback); with no failures `run` returns status 0. -/
theorem c3_run_phases (planning : Except Err (List BuildStep)) (dry : Bool) :
    (∀ e, planning = .error e → run planning dry = (1, []))
    ∧ (∀ builds, planning = .ok builds → (¬ ∀ b ∈ builds, b.process_result = .ok ()) →
        run planning dry = (1, []))
    ∧ (∀ builds m, planning = .ok builds → process_all builds = .ok () → dry = false →
        (save_loop 0 builds).2 = some m →
        run planning dry =
          (2, List.range' 0 (builds.takeWhile (fun b => b.save_result.isOk)).length))
    ∧ (∀ builds, planning = .ok builds → process_all builds = .ok () →
        (save_loop 0 builds).2 = none → ∃ saved, run planning dry = (0, saved)) := by
  refine ⟨?_, ?_, ?_, ?_⟩
  · intro e he
    rw [he]
    rfl
  · intro builds hp hproc
    rw [hp]
    simp only [run]
    cases hpa : process_all builds with
    | error e => rfl
    | ok u =>
      cases u
      exact absurd ((process_all_ok_iff builds).mp hpa) hproc
  · intro builds m hp hproc hdry hsave
    rw [hp]
    simp only [run, hproc]
    have hne : builds ≠ [] := by
      intro h
      rw [h] at hsave
      simp [save_loop] at hsave
    rw [if_neg (by simpa using hne), hdry, if_neg (by simp)]
    rw [← save_loop_saved_eq builds 0]
    cases hsl : save_loop 0 builds with
    | mk saved err =>
      rw [hsl] at hsave
      simp only at hsave
      subst hsave
      rfl
  · intro builds hp hproc hsave
    rw [hp]
    simp only [run, hproc]
    by_cases hemp : builds.isEmpty
    · exact ⟨[], by rw [if_pos hemp]⟩
    · rw [if_neg hemp]
      cases dry with
      | true => exact ⟨[], by rw [if_pos rfl]⟩
      | false =>
        rw [if_neg (by simp)]
        refine ⟨(save_loop 0 builds).1, ?_⟩
        cases hsl : save_loop 0 builds with
        | mk saved err =>
          rw [hsl] at hsave
          simp only at hsave
          subst hsave
          simp [hsl]

/-- Witness for C3 at concrete build lists: a processing failure returns
status 1 with nothing written, a write failure on the second of two units
returns status 2 with exactly the first file kept. -/
theorem c3_run_phases_witness :
    run (.ok [BuildStep.mk (.error .name_required) (.ok ())]) false = (1, [])
    ∧ run (.ok [BuildStep.mk (.ok ()) (.ok ()),
                BuildStep.mk (.ok ()) (.error "disk full")]) false = (2, [0]) := by
  constructor
  · exact (c3_run_phases (.ok [BuildStep.mk (.error .name_required) (.ok ())]) false).2.1
      _ rfl (by
        intro h
        have := h (BuildStep.mk (.error .name_required) (.ok ())) (by simp)
        cases this)
  · exact (c3_run_phases (.ok [BuildStep.mk (.ok ()) (.ok ()),
      BuildStep.mk (.ok ()) (.error "disk full")]) false).2.2.1
      _ "disk full" rfl rfl rfl rfl

/-- C5: resolving one `--field` placeholder: a supplied field value wins;
otherwise the placeholder's own `--default` attribute is used (also when
it is the empty string); otherwise the resolution fails with the
``field required`` defect naming the field; a placeholder with no
`--name` attribute is a hard error carrying the template's identity. -/
theorem c5_field_resolution (template : Template) (fields : Attrs)
    (field_tag : List Char) (attrs : Attrs)
    (hp : parse_attributes field_tag = .ok attrs) :
    (alook attrs "--name".data = none →
      get_field_value template fields field_tag = .error (.field_missing_name template.relpath))
    ∧ (∀ n v, alook attrs "--name".data = some n → alook fields n = some v →
        get_field_value template fields field_tag = .ok v)
    ∧ (∀ n d, alook attrs "--name".data = some n → alook fields n = none →
        alook attrs "--default".data = some d →
        get_field_value template fields field_tag = .ok d)
    ∧ (∀ n, alook attrs "--name".data = some n → alook fields n = none →
        alook attrs "--default".data = none →
        get_field_value template fields field_tag =
          .error (.field_required template.relpath n)) := by
  refine ⟨?_, ?_, ?_, ?_⟩
  · intro hn
    simp [get_field_value, get_field_dict, hp, hn]
  · intro n v hn hv
    simp [get_field_value, get_field_dict, hp, hn, hv]
  · intro n d hn hv hd
    simp [get_field_value, get_field_dict, hp, hn, hv, hd]
  · intro n hn hv hd
    simp [get_field_value, get_field_dict, hp, hn, hv, hd]

/-- Witness for C5 at concrete placeholders: an empty-string `--default` is
used when the field is not supplied, and a placeholder lacking both is the
``field required`` defect naming the field. -/
theorem c5_field_resolution_witness :
    get_field_value (Template.mk "card.html" []) []
        "<--field --name=\"x\" --default=\"\">".data = .ok []
    ∧ get_field_value (Template.mk "card.html" []) []
        "<--field --name=\"x\">".data = .error (.field_required "card.html" "x".data) := by
  constructor
  · exact (c5_field_resolution (Template.mk "card.html" []) []
      "<--field --name=\"x\" --default=\"\">".data
      [("--name".data, "x".data), ("--default".data, [])] rfl).2.2.1
      "x".data [] rfl rfl rfl
  · exact (c5_field_resolution (Template.mk "card.html" []) []
      "<--field --name=\"x\">".data
      [("--name".data, "x".data)] rfl).2.2.2
      "x".data rfl rfl rfl

/-- The no-overlap condition the splice loop checks: starting from
`cursor`, each range starts at or after the point the previous range ended. -/
def chain_from (cursor : Nat) : List SubRange → Bool
  | [] => true
  | s :: rest => decide (cursor ≤ s.first) && chain_from s.last rest

theorem splice_subs_isOk (tmpl : String) (text : List Char) :
    ∀ (subs : List SubRange) (cursor : Nat),
      (splice_subs tmpl text cursor subs).isOk = chain_from cursor subs := by
  intro subs
  induction subs with
  | nil => intro c; rfl
  | cons s rest ih =>
    intro c
    simp only [splice_subs, chain_from]
    by_cases hc : c > s.first
    · rw [if_pos hc]
      have hnot : ¬ c ≤ s.first := by omega
      simp [Except.isOk, Except.toBool, hnot]
    · rw [if_neg hc]
      have hle : c ≤ s.first := by omega
      rw [decide_eq_true hle, Bool.true_and, ← ih s.last]
      cases hrec : splice_subs tmpl text s.last rest <;> simp [Except.isOk, Except.toBool]

theorem splice_subs_error_eq (tmpl : String) (text : List Char) :
    ∀ (subs : List SubRange) (cursor : Nat) (e : Err),
      splice_subs tmpl text cursor subs = .error e → e = .overlapping_tags tmpl := by
  intro subs
  induction subs with
  | nil =>
    intro c e h
    cases h
  | cons s rest ih =>
    intro c e h
    simp only [splice_subs] at h
    by_cases hc : c > s.first
    · rw [if_pos hc] at h
      cases h
      rfl
    · rw [if_neg hc] at h
      cases hrec : splice_subs tmpl text s.last rest with
      | error e2 =>
        rw [hrec] at h
        cases h
        exact ih s.last _ hrec
      | ok tail =>
        rw [hrec] at h
        cases h

/-- C6: after sorting the substitution ranges by start offset, the splice
succeeds if and only if no range starts strictly before the point where
the previous range ended (so touching ranges are accepted), and it fails
with the ``overlapping tags`` defect exactly otherwise. -/
theorem c6_overlap_guard (tmpl : String) (text : List Char) (subs : List SubRange) :
    ((∃ out, splice_subs tmpl text 0 (sort_subs subs) = .ok out) ↔
      chain_from 0 (sort_subs subs) = true)
    ∧ (splice_subs tmpl text 0 (sort_subs subs) = .error (.overlapping_tags tmpl) ↔
      chain_from 0 (sort_subs subs) = false) := by
  have hok := splice_subs_isOk tmpl text (sort_subs subs) 0
  constructor
  · rw [← hok]
    cases h : splice_subs tmpl text 0 (sort_subs subs) <;>
      simp [Except.isOk, Except.toBool]
  · constructor
    · intro h
      rw [← hok, h]
      rfl
    · intro h
      rw [← hok] at h
      cases hs : splice_subs tmpl text 0 (sort_subs subs) with
      | error e =>
        rw [splice_subs_error_eq tmpl text (sort_subs subs) 0 e hs]
      | ok out =>
        rw [hs] at h
        cases h

/-- Witness for C6: touching ranges (one ending exactly where the next
starts) splice successfully, while strictly overlapping ranges yield the
``overlapping tags`` defect. -/
theorem c6_overlap_guard_witness :
    (∃ out, splice_subs "t.html" "abcdef".data 0
      (sort_subs [SubRange.mk 2 4 [], SubRange.mk 0 2 ['z']]) = .ok out)
    ∧ splice_subs "t.html" "abcdef".data 0
      (sort_subs [SubRange.mk 1 4 [], SubRange.mk 0 2 ['z']]) =
        .error (.overlapping_tags "t.html") := by
  constructor
  · exact ((c6_overlap_guard "t.html" "abcdef".data
      [SubRange.mk 2 4 [], SubRange.mk 0 2 ['z']]).1).mpr (by decide)
  · exact ((c6_overlap_guard "t.html" "abcdef".data
      [SubRange.mk 1 4 [], SubRange.mk 0 2 ['z']]).2).mpr (by decide)

theorem alook_dict_insert_self {α : Type} (l : List (List Char × α)) (k : List Char) (v : α) :
    alook (dict_insert l k v) k = some v := by
  induction l with
  | nil => simp [dict_insert, alook]
  | cons p rest ih =>
    cases p with
    | mk k2 v2 =>
      by_cases h : k2 = k
      · simp [dict_insert, h, alook]
      · simp [dict_insert, h, alook, ih]

theorem alook_dict_insert_ne {α : Type} (l : List (List Char × α)) (k k' : List Char) (v : α)
    (h : k' ≠ k) : alook (dict_insert l k v) k' = alook l k' := by
  induction l with
  | nil =>
    simp only [dict_insert, alook]
    rw [if_neg (fun hh : k = k' => h hh.symm)]
  | cons p rest ih =>
    cases p with
    | mk k2 v2 =>
      by_cases h2 : k2 = k
      · subst h2
        simp only [dict_insert, if_pos rfl, alook]
        rw [if_neg (fun hh : k2 = k' => h hh.symm), if_neg (fun hh : k2 = k' => h hh.symm)]
      · simp only [dict_insert, if_neg h2, alook, ih]

theorem foldl_dollar_not_mem (k : List Char) :
    ∀ (l : Attrs) (fs : Attrs), (∀ v, ('$' :: k, v) ∉ l) →
      alook (l.foldl dollar_step fs) k = alook fs k := by
  intro l
  induction l with
  | nil => intro fs _; rfl
  | cons p rest ih =>
    intro fs h
    rw [List.foldl_cons]
    rw [ih (dollar_step fs p) (fun v hv => h v (List.mem_cons_of_mem p hv))]
    cases p with
    | mk nm v =>
      match hnm : nm with
      | '$' :: nm2 =>
        have hne : nm2 ≠ k := by
          intro he
          subst he
          exact h v (List.mem_cons_self _ _)
        simp only [dollar_step]
        exact alook_dict_insert_ne fs nm2 k v (fun hh => hne hh.symm)
      | [] => rfl
      | c :: nm2 =>
        simp only [dollar_step]
        split
        · next heq =>
          injection heq with h1 h2
          subst h1
          subst h2
          have hne : nm2 ≠ k := by
            intro he
            subst he
            exact h v (List.mem_cons_self _ _)
          exact alook_dict_insert_ne fs nm2 k v (fun hh => hne hh.symm)
        · rfl

theorem foldl_dollar_mem (k : List Char) (v : List Char) :
    ∀ (l : Attrs) (fs : Attrs), (l.map Prod.fst).Nodup → ('$' :: k, v) ∈ l →
      alook (l.foldl dollar_step fs) k = some v := by
  intro l
  induction l with
  | nil =>
    intro fs _ hmem
    cases hmem
  | cons p rest ih =>
    intro fs hnodup hmem
    rw [List.map_cons, List.nodup_cons] at hnodup
    rw [List.foldl_cons]
    rcases List.mem_cons.mp hmem with heq | hmem2
    · subst heq
      have hnot : ∀ w, ('$' :: k, w) ∉ rest := by
        intro w hw
        have hmap : ('$' :: k) ∈ rest.map Prod.fst :=
          List.mem_map.mpr ⟨('$' :: k, w), hw, rfl⟩
        exact hnodup.1 hmap
      rw [foldl_dollar_not_mem k rest _ hnot]
      simp only [dollar_step]
      exact alook_dict_insert_self fs k v
    · exact ih (dollar_step fs p) hnodup.2 hmem2

theorem parse_bulk_ok_iff (parts : List (List Char)) :
    ∀ (acc : Attrs),
      (∃ m, parts.foldlM bulk_step acc = .ok m) ↔
      ∀ part ∈ parts, (part.splitOn ':').length = 2 := by
  induction parts with
  | nil =>
    intro acc
    simp only [List.foldlM]
    exact ⟨fun _ p hp => absurd hp (List.not_mem_nil p), fun _ => ⟨acc, rfl⟩⟩
  | cons p rest ih =>
    intro acc
    rw [List.foldlM_cons]
    match hsp : p.splitOn ':' with
    | [k, v] =>
      have hstep : bulk_step acc p = .ok (dict_insert acc (py_strip k) (py_strip v)) := by
        simp [bulk_step, hsp]
      rw [hstep]
      constructor
      · rintro ⟨m, hm⟩ part hpart
        rcases List.mem_cons.mp hpart with rfl | hpart
        · rw [hsp]
          rfl
        · simp only [bind, Except.bind] at hm
          exact (ih _).mp ⟨m, hm⟩ part hpart
      · intro h
        simp only [bind, Except.bind]
        exact (ih _).mpr (fun part hp => h part (List.mem_cons_of_mem p hp))
    | [] =>
      have hstep : bulk_step acc p = .error (.could_not_parse_field p) := by
        simp [bulk_step, hsp]
      rw [hstep]
      constructor
      · rintro ⟨m, hm⟩
        simp [bind, Except.bind] at hm
      · intro h
        exfalso
        have := h p (List.mem_cons_self p rest)
        rw [hsp] at this
        cases this
    | [a] =>
      have hstep : bulk_step acc p = .error (.could_not_parse_field p) := by
        simp [bulk_step, hsp]
      rw [hstep]
      constructor
      · rintro ⟨m, hm⟩
        simp [bind, Except.bind] at hm
      · intro h
        exfalso
        have := h p (List.mem_cons_self p rest)
        rw [hsp] at this
        cases this
    | a :: b :: c :: t =>
      have hstep : bulk_step acc p = .error (.could_not_parse_field p) := by
        simp [bulk_step, hsp]
      rw [hstep]
      constructor
      · rintro ⟨m, hm⟩
        simp [bind, Except.bind] at hm
      · intro h
        exfalso
        have := h p (List.mem_cons_self p rest)
        rw [hsp] at this
        simp at this

/-- C9: the usage field mapping parses the bulk `--fields` attribute first
(split on `;`, exactly one `:` per part or a hard error), then applies
every `$`-prefixed attribute under its unprefixed name, so a `$`-prefixed
attribute's value wins over the bulk value on a name conflict; a field
never supplied as a `$`-attribute keeps its bulk value. -/
theorem c9_field_merge (attr : Attrs) (hnodup : (attr.map Prod.fst).Nodup) :
    (∀ s, alook attr "--fields".data = some s → s ≠ [] →
      ((∃ m, parse_bulk_fields s = .ok m) ↔
        ∀ part ∈ s.splitOn ';', (part.splitOn ':').length = 2))
    ∧ (∀ m k v, build_fields attr = .ok m → ('$' :: k, v) ∈ attr →
        alook m k = some v)
    ∧ (∀ m base k, build_fields attr = .ok m →
        (match alook attr "--fields".data with
          | some s => if s ≠ [] then parse_bulk_fields s else .ok []
          | none => .ok []) = .ok base →
        (∀ v, ('$' :: k, v) ∉ attr) →
        alook m k = alook base k) := by
  refine ⟨?_, ?_, ?_⟩
  · intro s _ _
    exact parse_bulk_ok_iff (s.splitOn ';') []
  · intro m k v hbf hmem
    simp only [build_fields] at hbf
    cases hbase : (match alook attr "--fields".data with
        | some s => if s ≠ [] then parse_bulk_fields s else .ok []
        | none => (.ok [] : Except Err Attrs)) with
    | error e =>
      rw [hbase] at hbf
      cases hbf
    | ok base =>
      rw [hbase] at hbf
      simp only at hbf
      injection hbf with hbf
      subst hbf
      exact foldl_dollar_mem k v attr base hnodup hmem
  · intro m base k hbf hbase hnot
    simp only [build_fields] at hbf
    rw [hbase] at hbf
    simp only at hbf
    injection hbf with hbf
    subst hbf
    exact foldl_dollar_not_mem k attr base hnot

/-- Witness for C9 at a concrete usage: with
`--fields=" x : 1 ; y : 2 "` and `$x="X"`, the resolved mapping gives
`x ↦ X` (the `$`-attribute wins) and `y ↦ 2` (the trimmed bulk value). -/
theorem c9_field_merge_witness :
    alook [(['x'], ['X']), (['y'], ['2'])] "x".data = some "X".data
    ∧ alook [(['x'], ['X']), (['y'], ['2'])] "y".data = some "2".data := by
  have hthm := c9_field_merge [("--fields".data, " x : 1 ; y : 2 ".data), ("$x".data, "X".data)]
    (by decide)
  constructor
  · exact hthm.2.1 [(['x'], ['X']), (['y'], ['2'])] "x".data "X".data rfl (by simp)
  · have hb := hthm.2.2 [(['x'], ['X']), (['y'], ['2'])] [(['x'], ['1']), (['y'], ['2'])]
      "y".data rfl rfl (by
        intro v hv
        rcases List.mem_cons.mp hv with h | h
        · simp at h
        · rcases List.mem_cons.mp h with h2 | h2
          · simp at h2
          · exact absurd h2 (List.not_mem_nil _))
    simpa using hb

theorem iiqAux_none_of_short {s l : List Char} (h : l.length < s.length)
    (prev st : Option Char) : iiqAux s prev st l = none := by
  cases l with
  | nil => rfl
  | cons c rest =>
    simp only [iiqAux]
    rw [if_neg (by simp only [List.length_cons] at h; omega)]

theorem iiqAux_quoted_skip (s : List Char) (q : Char) (tail : List Char) :
    ∀ (mid : List Char) (prev : Option Char), q ∉ mid →
      iiqAux s prev (some q) (mid ++ q :: tail) =
        (iiqAux s (some q) none tail).map (· + (mid.length + 1)) := by
  intro mid
  induction mid with
  | nil =>
    intro prev _
    rw [List.nil_append]
    simp only [iiqAux]
    by_cases hb : s.length ≤ tail.length + 1
    · rw [if_pos hb]
      cases iiqAux s (some q) none tail <;> simp
    · rw [if_neg hb]
      cases hrec : iiqAux s (some q) none tail with
      | none => rfl
      | some i =>
        exfalso
        have := (iiqAux_some_bound hrec).1
        omega
  | cons m mrest ih =>
    intro prev hmem
    have hmq : ¬ m = q := fun he => hmem (he ▸ List.mem_cons_self m mrest)
    rw [List.cons_append]
    simp only [iiqAux, List.append_eq]
    by_cases hb : s.length ≤ (mrest ++ q :: tail).length + 1
    · rw [if_pos (by simpa using hb)]
      simp only [if_neg hmq]
      rw [ih (some m) (fun hq2 => hmem (List.mem_cons_of_mem _ hq2))]
      cases iiqAux s (some q) none tail <;> simp <;> omega
    · rw [if_neg (by simpa using hb)]
      cases hrec : iiqAux s (some q) none tail with
      | none => rfl
      | some i =>
        exfalso
        have := (iiqAux_some_bound hrec).1
        simp only [List.length_append, List.length_cons] at hb
        omega

/-- C8 (amended): the quote-aware scan of `index_ignore_quoted` skips an
entire quoted region — any occurrence of the needle (in particular `>`)
between an opening quote and the next occurrence of the same quote
character is ignored; a backslash-escaped quote does not *open* a quoted
region (but a backslash does not prevent the closing quote from closing
it); consequently, on `<--field --name="a>b">` the terminating `>` found
is the final one, at index 21, not the quoted one at index 18. -/
theorem c8_quoting_amended :
    (∀ (s : List Char) (prev : Option Char) (q : Char) (mid tail : List Char),
      (q = '"' ∨ q = squote) → prev ≠ some bslash → q ∉ mid →
      iiqAux s prev none (q :: (mid ++ q :: tail)) =
        (iiqAux s (some q) none tail).map (· + (mid.length + 2)))
    ∧ (∀ (s rest : List Char) (q : Char), (q = '"' ∨ q = squote) →
        iiqAux s (some bslash) none (q :: rest) =
          if s.length ≤ rest.length + 1 then
            (if s.isPrefixOf (q :: rest) then some 0
             else (iiqAux s (some q) none rest).map (· + 1))
          else none)
    ∧ index_ignore_quoted "<--field --name=\"a>b\">".data ['>'] 0 = some 21 := by
  refine ⟨?_, ?_, rfl⟩
  · intro s prev q mid tail hq hprev hmem
    simp only [iiqAux, List.append_eq]
    by_cases hb : s.length ≤ (mid ++ q :: tail).length + 1
    · rw [if_pos (by simpa using hb), if_pos ⟨hq, hprev⟩]
      rw [iiqAux_quoted_skip s q tail mid (some q) hmem]
      cases iiqAux s (some q) none tail <;> simp <;> omega
    · rw [if_neg (by simpa using hb)]
      cases hrec : iiqAux s (some q) none tail with
      | none => rfl
      | some i =>
        exfalso
        have := (iiqAux_some_bound hrec).1
        simp only [List.length_append, List.length_cons] at hb
        omega
  · intro s rest q hq
    simp only [iiqAux]
    have hcond : ¬ ((q = '"' ∨ q = squote) ∧ (some bslash : Option Char) ≠ some bslash) := by
      rintro ⟨_, hpr⟩
      exact hpr rfl
    by_cases hb : s.length ≤ rest.length + 1
    · simp only [if_pos hb, if_neg hcond]
    · simp only [if_neg hb]

/-- Witness for C8 (amended) at a concrete quoted value: scanning
`"a>b">` for `>` from the opening quote skips the quoted `>` and finds
the one after the closing quote, at offset 5. -/
theorem c8_quoting_amended_witness :
    iiqAux ['>'] none none ('"' :: ("a>b".data ++ '"' :: ['>'])) = some 5 :=
  (c8_quoting_amended.1 ['>'] none '"' "a>b".data ['>']
    (Or.inl rfl) (by simp) (by decide)).trans rfl

/-- Modelled from the claim's words, for comparison with the source's
`index_ignore_quoted`: a scanner in which a backslash-escaped quote
character neither opens *nor closes* a quoted region. -/
def iiqClaimAux (s : List Char) (prev st : Option Char) : List Char → Option Nat
  | [] => none
  | c :: rest =>
    if s.length ≤ rest.length + 1 then
      match st with
      | none =>
        if (c = '"' ∨ c = squote) ∧ prev ≠ some bslash then
          (iiqClaimAux s (some c) (some c) rest).map (· + 1)
        else if s.isPrefixOf (c :: rest) then some 0
        else (iiqClaimAux s (some c) none rest).map (· + 1)
      | some q =>
        if c = q ∧ prev ≠ some bslash then (iiqClaimAux s (some c) none rest).map (· + 1)
        else (iiqClaimAux s (some c) (some q) rest).map (· + 1)
    else none

/-- The claim's scanner over a whole buffer. -/
def index_ignore_quoted_claimed (text s : List Char) (b : Nat) : Option Nat :=
  (iiqClaimAux s (if b = 0 then none else text.get? (b - 1)) none (text.drop b)).map (· + b)

/-- Counterexample to C8 as stated: on `<--field --name="a\">b">` the
source's scan treats the backslash-escaped `"` at index 19 as *closing*
the quote, so the `>` at index 20 terminates the tag scan; under the
claim's reading (escaped quotes neither open nor close) the quote would
still be open there and the scan would return the `>` at index 23. -/
theorem c8_counterexample :
    index_ignore_quoted "<--field --name=\"a\\\">b\">".data ['>'] 0 = some 20
    ∧ index_ignore_quoted_claimed "<--field --name=\"a\\\">b\">".data ['>'] 0 = some 23
    ∧ index_ignore_quoted "<--field --name=\"a\\\">b\">".data ['>'] 0 ≠
        index_ignore_quoted_claimed "<--field --name=\"a\\\">b\">".data ['>'] 0 := by
  refine ⟨rfl, rfl, by decide⟩

theorem findTagLoop_eq_none (tag text : List Char) (st hs : Nat)
    (hff : first_form_from tag text hs = none) :
    findTagLoop tag text st hs = if hs = 0 then .ok none else .error .open_no_close := by
  rw [findTagLoop]
  split
  · rfl
  · next i heq =>
    rw [hff] at heq
    cases heq

theorem findTagLoop_eq_missing (tag text : List Char) (st hs i : Nat)
    (hff : first_form_from tag text hs = some i)
    (hiq : index_ignore_quoted text ['>'] i = none) :
    findTagLoop tag text st hs = .error .missing_gt := by
  rw [findTagLoop]
  split
  · next heq =>
    rw [hff] at heq
    cases heq
  · next i2 heq =>
    rw [hff] at heq
    injection heq with heq
    subst heq
    split
    · rfl
    · next j2 heq2 =>
      rw [hiq] at heq2
      cases heq2

theorem findTagLoop_eq_closing_err (tag text : List Char) (st i j : Nat)
    (hff : first_form_from tag text 0 = some i)
    (hiq : index_ignore_quoted text ['>'] i = some j)
    (hcl : text.get? (i + 1) = some '/') :
    findTagLoop tag text st 0 = .error .closing_no_open := by
  rw [findTagLoop]
  split
  · next heq =>
    rw [hff] at heq
    cases heq
  · next i2 heq =>
    rw [hff] at heq
    injection heq with heq
    subst heq
    split
    · next heq2 =>
      rw [hiq] at heq2
      cases heq2
    · next j2 heq2 =>
      rw [hiq] at heq2
      injection heq2 with heq2
      subst heq2
      rw [if_pos hcl, if_pos rfl]

theorem findTagLoop_eq_close (tag text : List Char) (st hs i j : Nat)
    (hff : first_form_from tag text hs = some i)
    (hiq : index_ignore_quoted text ['>'] i = some j)
    (hcl : text.get? (i + 1) = some '/') (hhs : hs ≠ 0) :
    findTagLoop tag text st hs = .ok (some (st, hs, i, j + 1)) := by
  rw [findTagLoop]
  split
  · next heq =>
    rw [hff] at heq
    cases heq
  · next i2 heq =>
    rw [hff] at heq
    injection heq with heq
    subst heq
    split
    · next heq2 =>
      rw [hiq] at heq2
      cases heq2
    · next j2 heq2 =>
      rw [hiq] at heq2
      injection heq2 with heq2
      subst heq2
      rw [if_pos hcl, if_neg hhs]

theorem findTagLoop_eq_step (tag text : List Char) (st hs i j : Nat)
    (hff : first_form_from tag text hs = some i)
    (hiq : index_ignore_quoted text ['>'] i = some j)
    (hcl : ¬ text.get? (i + 1) = some '/') :
    findTagLoop tag text st hs = findTagLoop tag text i (j + 1) := by
  rw [findTagLoop]
  split
  · next heq =>
    rw [hff] at heq
    cases heq
  · next i2 heq =>
    rw [hff] at heq
    injection heq with heq
    subst heq
    split
    · next heq2 =>
      rw [hiq] at heq2
      cases heq2
    · next j2 heq2 =>
      rw [hiq] at heq2
      injection heq2 with heq2
      subst heq2
      rw [if_neg hcl]

theorem findTagLoop_ok_bounds (tag text : List Char) :
    ∀ (n st hs : Nat), text.length - hs ≤ n →
      (hs = 0 ∨ (st < hs ∧ hs ≤ text.length)) →
      ∀ a b c d, findTagLoop tag text st hs = .ok (some (a, b, c, d)) →
        a < b ∧ b ≤ c ∧ c < d ∧ d ≤ text.length := by
  intro n
  induction n with
  | zero =>
    intro st hs hn hinv a b c d h
    cases hff : first_form_from tag text hs with
    | none =>
      rw [findTagLoop_eq_none tag text st hs hff] at h
      by_cases hhs : hs = 0
      · rw [if_pos hhs] at h
        simp at h
      · rw [if_neg hhs] at h
        simp at h
    | some i =>
      have hfb := first_form_from_bounds hff
      omega
  | succ n ih =>
    intro st hs hn hinv a b c d h
    cases hff : first_form_from tag text hs with
    | none =>
      rw [findTagLoop_eq_none tag text st hs hff] at h
      by_cases hhs : hs = 0
      · rw [if_pos hhs] at h
        simp at h
      · rw [if_neg hhs] at h
        simp at h
    | some i =>
      have hfb := first_form_from_bounds hff
      cases hiq : index_ignore_quoted text ['>'] i with
      | none =>
        rw [findTagLoop_eq_missing tag text st hs i hff hiq] at h
        simp at h
      | some j =>
        have hib := index_ignore_quoted_bounds hiq
        simp only [List.length_cons, List.length_nil] at hib
        by_cases hcl : text.get? (i + 1) = some '/'
        · by_cases hhs : hs = 0
          · subst hhs
            rw [findTagLoop_eq_closing_err tag text st i j hff hiq hcl] at h
            simp at h
          · rw [findTagLoop_eq_close tag text st hs i j hff hiq hcl hhs] at h
            simp only [Except.ok.injEq, Option.some.injEq, Prod.mk.injEq] at h
            obtain ⟨rfl, rfl, rfl, rfl⟩ := h
            rcases hinv with h0 | ⟨hst, hle⟩
            · exact absurd h0 hhs
            · exact ⟨hst, hfb.1, by omega, by omega⟩
        · rw [findTagLoop_eq_step tag text st hs i j hff hiq hcl] at h
          exact ih i (j + 1) (by omega) (Or.inr ⟨by omega, by omega⟩) a b c d h

/-- C10: whenever `find_tag` returns offsets
`(start, html_start, html_end, end)`, they satisfy
`0 ≤ start < html_start ≤ html_end < end ≤ length`, so the opening-tag,
inner-content and whole-span slices are all well formed. -/
theorem c10_offset_order (tag text : List Char) (a b c d : Nat)
    (h : find_tag tag text = .ok (some (a, b, c, d))) :
    0 ≤ a ∧ a < b ∧ b ≤ c ∧ c < d ∧ d ≤ text.length := by
  have hb := findTagLoop_ok_bounds tag text text.length 0 0 (by omega) (Or.inl rfl) a b c d h
  exact ⟨Nat.zero_le a, hb.1, hb.2.1, hb.2.2.1, hb.2.2.2⟩

theorem find_tag_c10_example :
    find_tag "--template".data "x<--template --name=\"t\">inner</--template>tail".data =
      .ok (some (1, 24, 29, 42)) := by
  unfold find_tag
  rw [findTagLoop_eq_step "--template".data
    "x<--template --name=\"t\">inner</--template>tail".data 0 0 1 23 rfl rfl (by decide)]
  rw [findTagLoop_eq_close "--template".data
    "x<--template --name=\"t\">inner</--template>tail".data 1 24 29 41 rfl rfl rfl (by decide)]

/-- Witness for C10 at a concrete buffer with surrounding text: the four
returned offsets are strictly ordered as required. -/
theorem c10_offset_order_witness :
    0 ≤ 1 ∧ 1 < 24 ∧ 24 ≤ 29 ∧ 29 < 42 ∧
      42 ≤ ("x<--template --name=\"t\">inner</--template>tail".data).length :=
  c10_offset_order "--template".data _ 1 24 29 42 find_tag_c10_example

/-- The scan positions `find_tag` passes through: position 0, and, after
consuming an opening form at `i` whose opening tag ends at `j`, position
`j + 1`. -/
inductive Reaches (tag text : List Char) : Nat → Prop where
  | zero : Reaches tag text 0
  | step {b i j : Nat} : Reaches tag text b →
      first_form_from tag text b = some i →
      ¬ text.get? (i + 1) = some '/' →
      index_ignore_quoted text ['>'] i = some j →
      Reaches tag text (j + 1)

theorem firstFormAux_none_iff (tag : List Char) :
    ∀ (l : List Char), firstFormAux tag l = none ↔
      ∀ k, (('<' :: tag).isPrefixOf (l.drop k) || ('<' :: '/' :: tag).isPrefixOf (l.drop k)) = false := by
  intro l
  induction l with
  | nil =>
    constructor
    · intro _ k
      rw [List.drop_nil]
      rfl
    · intro _
      rfl
  | cons c rest ih =>
    rw [firstFormAux]
    by_cases hp : ('<' :: tag).isPrefixOf (c :: rest) || ('<' :: '/' :: tag).isPrefixOf (c :: rest)
    · rw [if_pos hp]
      constructor
      · intro h
        cases h
      · intro h
        have := h 0
        rw [List.drop_zero] at this
        rw [hp] at this
        cases this
    · rw [if_neg hp]
      constructor
      · intro h k
        cases k with
        | zero =>
          rw [List.drop_zero]
          exact Bool.eq_false_iff.mpr hp
        | succ k2 =>
          rw [List.drop_succ_cons]
          exact (ih.mp (by
            cases haux : firstFormAux tag rest with
            | none => rfl
            | some v =>
              rw [haux] at h
              cases h)) k2
      · intro h
        cases haux : firstFormAux tag rest with
        | none => rfl
        | some v =>
          exfalso
          have hre := ih.mpr (fun k => by
            have := h (k + 1)
            rw [List.drop_succ_cons] at this
            exact this)
          rw [hre] at haux
          cases haux

theorem first_form_from_none_iff (tag text : List Char) (pos : Nat) :
    first_form_from tag text pos = none ↔ ∀ i, pos ≤ i → form_at tag text i = false := by
  unfold first_form_from form_at
  constructor
  · intro h i hpos
    have hnone : firstFormAux tag (text.drop pos) = none := by
      cases haux : firstFormAux tag (text.drop pos) with
      | none => rfl
      | some v =>
        rw [haux] at h
        cases h
    have := (firstFormAux_none_iff tag (text.drop pos)).mp hnone (i - pos)
    rw [List.drop_drop] at this
    rw [Nat.add_sub_cancel' hpos] at this
    exact this
  · intro h
    have hnone : firstFormAux tag (text.drop pos) = none :=
      (firstFormAux_none_iff tag (text.drop pos)).mpr (fun k => by
        rw [List.drop_drop]
        exact h (pos + k) (Nat.le_add_right pos k))
    rw [hnone]
    rfl

theorem findTagLoop_sound (tag text : List Char) :
    ∀ (n st hs : Nat), text.length - hs ≤ n → Reaches tag text hs →
      (findTagLoop tag text st hs = .ok none →
        hs = 0 ∧ first_form_from tag text 0 = none)
      ∧ (findTagLoop tag text st hs = .error .closing_no_open →
        ∃ i j, first_form_from tag text 0 = some i ∧ text.get? (i + 1) = some '/' ∧
          index_ignore_quoted text ['>'] i = some j)
      ∧ (findTagLoop tag text st hs = .error .open_no_close →
        ∃ b, Reaches tag text b ∧ b ≠ 0 ∧ first_form_from tag text b = none)
      ∧ (findTagLoop tag text st hs = .error .missing_gt →
        ∃ b i, Reaches tag text b ∧ first_form_from tag text b = some i ∧
          index_ignore_quoted text ['>'] i = none) := by
  intro n
  induction n with
  | zero =>
    intro st hs hn hR
    cases hff : first_form_from tag text hs with
    | none =>
      rw [findTagLoop_eq_none tag text st hs hff]
      by_cases hhs : hs = 0
      · rw [if_pos hhs]
        refine ⟨fun _ => ⟨hhs, hhs ▸ hff⟩, fun h => ?_, fun h => ?_, fun h => ?_⟩ <;> cases h
      · rw [if_neg hhs]
        refine ⟨fun h => ?_, fun h => ?_, fun _ => ⟨hs, hR, hhs, hff⟩, fun h => ?_⟩ <;> cases h
    | some i =>
      have hfb := first_form_from_bounds hff
      omega
  | succ n ih =>
    intro st hs hn hR
    cases hff : first_form_from tag text hs with
    | none =>
      rw [findTagLoop_eq_none tag text st hs hff]
      by_cases hhs : hs = 0
      · rw [if_pos hhs]
        refine ⟨fun _ => ⟨hhs, hhs ▸ hff⟩, fun h => ?_, fun h => ?_, fun h => ?_⟩ <;> cases h
      · rw [if_neg hhs]
        refine ⟨fun h => ?_, fun h => ?_, fun _ => ⟨hs, hR, hhs, hff⟩, fun h => ?_⟩ <;> cases h
    | some i =>
      have hfb := first_form_from_bounds hff
      cases hiq : index_ignore_quoted text ['>'] i with
      | none =>
        rw [findTagLoop_eq_missing tag text st hs i hff hiq]
        refine ⟨fun h => ?_, fun h => ?_, fun h => ?_, fun _ => ⟨hs, i, hR, hff, hiq⟩⟩ <;> cases h
      | some j =>
        have hib := index_ignore_quoted_bounds hiq
        simp only [List.length_cons, List.length_nil] at hib
        by_cases hcl : text.get? (i + 1) = some '/'
        · by_cases hhs : hs = 0
          · subst hhs
            rw [findTagLoop_eq_closing_err tag text st i j hff hiq hcl]
            refine ⟨fun h => ?_, fun _ => ⟨i, j, hff, hcl, hiq⟩, fun h => ?_, fun h => ?_⟩ <;> cases h
          · rw [findTagLoop_eq_close tag text st hs i j hff hiq hcl hhs]
            refine ⟨fun h => ?_, fun h => ?_, fun h => ?_, fun h => ?_⟩ <;> cases h
        · rw [findTagLoop_eq_step tag text st hs i j hff hiq hcl]
          have ihh := ih i (j + 1) (by omega) (Reaches.step hR hff hcl hiq)
          exact ⟨fun h => absurd (ihh.1 h).1 (by omega), ihh.2.1, ihh.2.2.1, ihh.2.2.2⟩

theorem reaches_loop (tag text : List Char) :
    ∀ (b : Nat), Reaches tag text b → ∀ st, ∃ st2,
      findTagLoop tag text st 0 = findTagLoop tag text st2 b := by
  intro b hR
  induction hR with
  | zero => intro st; exact ⟨st, rfl⟩
  | @step b2 i2 j2 hR2 hff hcl hiq ih =>
    intro st
    obtain ⟨st2, hst2⟩ := ih st
    exact ⟨i2, hst2.trans (findTagLoop_eq_step tag text st2 b2 i2 j2 hff hiq hcl)⟩

/-- C7 (amended): the tag locator returns not-found exactly when no form
of the tag occurs anywhere in the buffer; it raises
``closing tag with no matching open`` exactly when the first form
encountered is a closing form whose scan for `>` succeeds (a closing form
with no `>` at or after it raises ``missing `>` `` instead); it raises
``opening tag with no matching close`` exactly when, after passing at
least one opening form, the scan finds no further form; and it raises
``missing `>` `` exactly when the scan reaches a form (opening or closing)
with no unquoted `>` at or after it. -/
theorem c7_locator_errors (tag text : List Char) :
    (find_tag tag text = .ok none ↔ ∀ i, form_at tag text i = false)
    ∧ (find_tag tag text = .error .closing_no_open ↔
        ∃ i j, first_form_from tag text 0 = some i ∧ text.get? (i + 1) = some '/' ∧
          index_ignore_quoted text ['>'] i = some j)
    ∧ (find_tag tag text = .error .open_no_close ↔
        ∃ b, Reaches tag text b ∧ b ≠ 0 ∧ first_form_from tag text b = none)
    ∧ (find_tag tag text = .error .missing_gt ↔
        ∃ b i, Reaches tag text b ∧ first_form_from tag text b = some i ∧
          index_ignore_quoted text ['>'] i = none) := by
  have hsound := findTagLoop_sound tag text text.length 0 0 (by omega) Reaches.zero
  refine ⟨⟨fun hok => ?_, fun hnf => ?_⟩, ⟨fun hcerr => ?_, fun hccond => ?_⟩,
    ⟨fun hoerr => ?_, fun hocond => ?_⟩, ⟨fun hmerr => ?_, fun hmcond => ?_⟩⟩
  · intro i
    exact (first_form_from_none_iff tag text 0).mp (hsound.1 hok).2 i (Nat.zero_le i)
  · have hff : first_form_from tag text 0 = none :=
      (first_form_from_none_iff tag text 0).mpr (fun i _ => hnf i)
    unfold find_tag
    rw [findTagLoop_eq_none tag text 0 0 hff, if_pos rfl]
  · exact hsound.2.1 hcerr
  · obtain ⟨i, j, hff, hcl, hiq⟩ := hccond
    unfold find_tag
    exact findTagLoop_eq_closing_err tag text 0 i j hff hiq hcl
  · exact hsound.2.2.1 hoerr
  · obtain ⟨b, hR, hb, hff⟩ := hocond
    obtain ⟨st2, hst2⟩ := reaches_loop tag text b hR 0
    unfold find_tag
    rw [hst2, findTagLoop_eq_none tag text st2 b hff, if_neg hb]
  · exact hsound.2.2.2 hmerr
  · obtain ⟨b, i, hR, hff, hiq⟩ := hmcond
    obtain ⟨st2, hst2⟩ := reaches_loop tag text b hR 0
    unfold find_tag
    rw [hst2]
    exact findTagLoop_eq_missing tag text st2 b i hff hiq

/-- Witness for C7 (amended): on a buffer that is one closing form of
the tag followed by `>`, the locator raises
``closing tag with no matching open``. -/
theorem c7_locator_errors_witness :
    find_tag "--template".data "</--template>".data = .error .closing_no_open :=
  (c7_locator_errors "--template".data "</--template>".data).2.1.mpr
    ⟨0, 12, rfl, rfl, rfl⟩

/-- Counterexample to C7 as stated: on a buffer that is one closing form
of the tag with no terminating `>` (the closing tag text truncated before
its `>`), a closing form is encountered before any opening form, yet the
locator raises ``missing `>` `` (the scan for the terminating `>` runs
first), not ``closing tag with no matching open``; also, the claim ties
``missing `>` `` to *opening* tags only, but here it is raised for a
closing form. -/
theorem c7_counterexample :
    first_form_from "--template".data "</--template".data 0 = some 0
    ∧ ("</--template".data).get? 1 = some '/'
    ∧ find_tag "--template".data "</--template".data = .error .missing_gt
    ∧ find_tag "--template".data "</--template".data ≠ .error .closing_no_open := by
  have h3 : find_tag "--template".data "</--template".data = .error .missing_gt := by
    unfold find_tag
    exact findTagLoop_eq_missing "--template".data "</--template".data 0 0 0 rfl rfl
  refine ⟨rfl, rfl, h3, ?_⟩
  rw [h3]
  intro h
  cases h

/-- The template of the C4 divergence scenario: it contains only `--field`
tags (no template-usage form at all), yet its field substitutions can
reassemble a usage tag verbatim. -/
def tmpl4 : Template :=
  Template.mk "t.html"
    "<--field --name=\"o\"> --name=\"t\" $o=\"<--field --name=\"o\">\" $c=\"<--field --name=\"c\">\"><--field --name=\"c\">".data

/-- The template mapping of the C4 scenario. -/
def templates4 : List (List Char × Template) := [("t".data, tmpl4)]

/-- A document whose single usage of template `t` expands to itself: the
`$o` and `$c` field values recreate the usage's opening and closing tags. -/
def doc4 : List Char :=
  "<--template --name=\"t\" $o=\"<--template\" $c=\"</--template>\"></--template>".data

theorem find_tag_doc4 :
    find_tag "--template".data doc4 = .ok (some (0, 59, 59, 72)) := by
  unfold find_tag
  rw [findTagLoop_eq_step "--template".data doc4 0 0 0 58 rfl rfl (by decide)]
  rw [findTagLoop_eq_close "--template".data doc4 0 59 59 71 rfl rfl rfl (by decide)]

theorem ph_step_doc4 : ph_step templates4 doc4 = .ok (some doc4) := by
  unfold ph_step
  rw [find_tag_doc4]
  rfl

theorem process_html_doc4_diverges :
    ∀ n, process_html templates4 n doc4 = .error .out_of_fuel := by
  intro n
  induction n with
  | zero => rfl
  | succ n ih =>
    rw [process_html, ph_step_doc4]
    exact ih

/-- Counterexample to C4 as stated: the only referenced template of
`doc4` contains no template-usage tag at all (the locator reports
not-found on its content), yet the document expander never terminates on
`doc4` — for every recursion budget it runs out of fuel, because each
resolution step reproduces `doc4` exactly. -/
theorem c4_counterexample :
    find_tag "--template".data tmpl4.content = .ok none
    ∧ ∀ n, process_html templates4 n doc4 = .error .out_of_fuel := by
  constructor
  · unfold find_tag
    rw [findTagLoop_eq_none "--template".data tmpl4.content 0 0 rfl]
    rfl
  · exact process_html_doc4_diverges

theorem ph_step_ok_none {templates : List (List Char × Template)} {text : List Char}
    (h : ph_step templates text = .ok none) :
    find_tag "--template".data text = .ok none := by
  unfold ph_step at h
  split at h
  · cases h
  · next heq => exact heq
  · next s hs he e heq =>
    split at h
    · cases h
    · split at h
      · cases h
      · split at h
        · cases h
        · split at h
          · cases h
          · split at h
            · cases h
            · cases h

theorem process_html_base {templates : List (List Char × Template)} {text : List Char}
    (h : find_tag "--template".data text = .ok none) (n : Nat) :
    process_html templates (n + 1) text = .ok text := by
  rw [process_html]
  have hstep : ph_step templates text = .ok none := by
    unfold ph_step
    rw [h]
  rw [hstep]

theorem process_html_ok_no_tags {templates : List (List Char × Template)} :
    ∀ (n : Nat) (text r : List Char), process_html templates n text = .ok r →
      find_tag "--template".data r = .ok none := by
  intro n
  induction n with
  | zero =>
    intro text r h
    cases h
  | succ n ih =>
    intro text r h
    rw [process_html] at h
    cases hstep : ph_step templates text with
    | error e =>
      rw [hstep] at h
      cases h
    | ok o =>
      cases o with
      | none =>
        rw [hstep] at h
        injection h with h
        subst h
        exact ph_step_ok_none hstep
      | some text2 =>
        rw [hstep] at h
        exact ih text2 r h

/-- C4 (amended): whenever the document expander terminates successfully,
its result contains no remaining template-usage tag (the locator reports
not-found on it) and re-applying the expander to it is the identity; the
no-tag base case returns the text unchanged.  Termination itself is *not*
guaranteed, even when every referenced template contains no usage tags
(see the self-reproducing counterexample). -/
theorem c4_expander_amended (templates : List (List Char × Template)) :
    (∀ (text : List Char), find_tag "--template".data text = .ok none →
      ∀ n, process_html templates (n + 1) text = .ok text)
    ∧ (∀ (n : Nat) (text r : List Char), process_html templates n text = .ok r →
      find_tag "--template".data r = .ok none ∧
        ∀ m, process_html templates (m + 1) r = .ok r) := by
  constructor
  · intro text h n
    exact process_html_base h n
  · intro n text r h
    have hr := process_html_ok_no_tags n text r h
    exact ⟨hr, fun m => process_html_base hr m⟩

/-- Witness for C4 (amended): on a tag-free document the expander is the
identity, and its output re-expands to itself. -/
theorem c4_expander_amended_witness :
    process_html [] 1 "hi".data = .ok "hi".data
    ∧ find_tag "--template".data "hi".data = .ok none := by
  have hnone : find_tag "--template".data "hi".data = .ok none := by
    unfold find_tag
    rw [findTagLoop_eq_none "--template".data "hi".data 0 0 rfl]
    rfl
  exact ⟨(c4_expander_amended []).1 "hi".data hnone 0, hnone⟩

theorem template_names_loop_step (page : Page) (fuel : Nat) (text : List Char)
    (names : List (List Char)) (s hs he e : Nat) (attrs : Attrs) (n : List Char)
    (hft : find_tag "--template".data text = .ok (some (s, hs, he, e)))
    (hpa : parse_attributes ((text.drop s).take (hs - s)) = .ok attrs)
    (hn : alook attrs "--name".data = some n) :
    template_names_loop page (fuel + 1) text names =
      template_names_loop page fuel ((text.drop hs).take (he - hs)) (set_add names n) := by
  simp only [template_names_loop]
  rw [hft]
  simp only []
  rw [hpa]
  simp only []
  rw [hn]

theorem template_names_loop_done (page : Page) (fuel : Nat) (text : List Char)
    (names : List (List Char))
    (hft : find_tag "--template".data text = .ok none) :
    template_names_loop page (fuel + 1) text names = .ok names := by
  simp only [template_names_loop]
  rw [hft]

/-- The two-sibling-usages document of the C2 scenario: usage of template
`a` followed, at the top level, by a usage of template `b`. -/
def page2 : Page :=
  Page.mk "index.html"
    "<--template --name=\"a\"></--template><--template --name=\"b\"></--template>".data

theorem find_tag_page2 :
    find_tag "--template".data page2.content = .ok (some (0, 23, 23, 36)) := by
  unfold find_tag
  rw [findTagLoop_eq_step "--template".data page2.content 0 0 0 22 rfl rfl (by decide)]
  rw [findTagLoop_eq_close "--template".data page2.content 0 23 23 35 rfl rfl rfl (by decide)]

theorem find_tag_page2_tail :
    find_tag "--template".data (page2.content.drop 36) = .ok (some (0, 23, 23, 36)) := by
  unfold find_tag
  rw [findTagLoop_eq_step "--template".data (page2.content.drop 36) 0 0 0 22 rfl rfl (by decide)]
  rw [findTagLoop_eq_close "--template".data (page2.content.drop 36) 0 23 23 35 rfl rfl rfl
    (by decide)]

theorem template_names_page2 : template_names page2 = .ok ["a".data] := by
  unfold template_names
  rw [show page2.content.length + 1 = 72 + 1 from rfl]
  rw [template_names_loop_step page2 72 page2.content [] 0 23 23 36
    [("--name".data, "a".data)] "a".data find_tag_page2 rfl rfl]
  rw [show (72 : Nat) = 71 + 1 from rfl]
  rw [template_names_loop_done page2 71 _ _ (by
    unfold find_tag
    rw [findTagLoop_eq_none "--template".data ((page2.content.drop 23).take 0) 0 0 rfl]
    rfl)]
  rfl

/-- C2 is a bug the source itself documents (`TODO: THIS IS BROKEN`,
"doesn't work with multiple templates yet"): on a document with two
sibling top-level usages, naming templates `a` and `b`, the dependency
scan collects only `{a}` — the narrowing to the *inside* of the first
usage skips the sibling — and `get_templates_used` therefore raises no
error even though the mapping lacks `b`.  The last three conjuncts show
the second usage is really there: the remainder of the document after the
first usage starts with a well-formed usage whose `--name` is `b`. -/
theorem c2_dependency_scan_bug :
    template_names page2 = .ok ["a".data]
    ∧ get_templates_used [("a".data, Template.mk "a.html" "hello".data)] page2 = .ok ["a".data]
    ∧ find_tag "--template".data (page2.content.drop 36) = .ok (some (0, 23, 23, 36))
    ∧ parse_attributes ((page2.content.drop 36).take 23) = .ok [("--name".data, "b".data)]
    ∧ ("b".data ∈ ["a".data]) = False := by
  refine ⟨template_names_page2, ?_, find_tag_page2_tail, rfl, by simp⟩
  unfold get_templates_used
  rw [template_names_page2]
  rfl
